import Mathlib

/-!
Formal model of the jira-bot status analyzer (`own.py`).

The core logic of the repository is embedded shallowly:

* timestamps are rationals (seconds on the UTC time line); a duration in
  hours is a difference of timestamps divided by 3600, exactly as the
  source computes `total_seconds() / 3600`;
* Python's `defaultdict(float)` / `dict` accumulators become insertion
  ordered association lists `List (String × ℚ)` with an update-or-append
  operation, which reproduces both the accumulated values and the key
  insertion behaviour (`m[k] += v` creates the key `k` even for `v = 0`);
* `datetime.now(pytz.UTC)` becomes an explicit `now : ℚ` parameter;
* Python exceptions become `Except` values, and the remote Jira server is
  an oracle function passed as a parameter.
-/

namespace JiraBot

/-- A status transition extracted from a changelog entry, as built by
`_get_status_changes`: the dict
`{'from_status': ..., 'to_status': ..., 'timestamp': ...}`. -/
structure StatusChange where
  from_status : String
  to_status : String
  timestamp : ℚ
  deriving DecidableEq, Repr

/-- The `Dict[str, float]` of hours per status, as an insertion-ordered
association list (Python dicts preserve insertion order). -/
abbrev DurationMap := List (String × ℚ)

/-- The update `m[s] += v` on a `defaultdict(float)`: the first entry with
key `s` is updated in place; if no entry exists, `(s, v)` is appended
(starting from the default `0.0`). -/
def dmAdd : DurationMap → String → ℚ → DurationMap
  | [], s, v => [(s, v)]
  | (k, x) :: rest, s, v =>
    if k = s then (k, x + v) :: rest else (k, x) :: dmAdd rest s v

/-- Lookup `m[s]` with the `defaultdict(float)` default `0.0`. -/
def dmGet : DurationMap → String → ℚ
  | [], _ => 0
  | (k, v) :: rest, s => if k = s then v else dmGet rest s

/-- The keys of a `DurationMap`, in insertion order. -/
def dmKeys (m : DurationMap) : List String := m.map Prod.fst

/-- The sum of all values of a `DurationMap` (`sum(m.values())`). -/
def dmSum (m : DurationMap) : ℚ := (m.map Prod.snd).sum

/-- The loop state of `_calculate_status_durations`: the local variables
`current_status`, `current_time` and the accumulator `status_durations`. -/
structure ReplayState where
  current_status : String
  current_time : ℚ
  durations : DurationMap
  deriving Repr

/-- One iteration of the `for change in status_changes` loop of
`_calculate_status_durations` (own.py lines 123-127). -/
def replay_step (st : ReplayState) (change : StatusChange) : ReplayState :=
  { current_status := change.to_status
    current_time := change.timestamp
    durations :=
      dmAdd st.durations st.current_status
        ((change.timestamp - st.current_time) / 3600) }

/-- Embedding of `_calculate_status_durations` (own.py lines 114-135).
The wall clock `datetime.now(pytz.UTC)` is the explicit parameter `now`.
An empty transition list returns the empty map; otherwise the loop starts
from the synthetic status `'New Issues'` at the first transition's
timestamp, and if the final status is not `'Done'` the trailing time up to
`now` is accrued into it. -/
def calculate_status_durations (now : ℚ) (status_changes : List StatusChange) :
    DurationMap :=
  match status_changes with
  | [] => []
  | first :: rest =>
    let final := (first :: rest).foldl replay_step
      ⟨"New Issues", first.timestamp, []⟩
    if final.current_status ≠ "Done" then
      dmAdd final.durations final.current_status
        ((now - final.current_time) / 3600)
    else
      final.durations

/-- The sorting stage of `_get_status_changes` (own.py line 112):
Python's `sorted(status_changes, key=lambda x: x['timestamp'])`, a stable
sort ascending by timestamp. -/
def sortChanges (l : List StatusChange) : List StatusChange :=
  l.mergeSort (fun a b => decide (a.timestamp ≤ b.timestamp))

/-- The composition of the replayer's sorting stage with the duration
calculator: what `analyze_single_issue` computes once the raw changelog
has been turned into a list of `StatusChange`. -/
def analyze_changes (now : ℚ) (l : List StatusChange) : DurationMap :=
  calculate_status_durations now (sortChanges l)

/-- A changelog item as consumed by `_get_status_changes`: Jira's
`history.items` entries with `field`, `fromString`, `toString`. -/
structure RawItem where
  field : String
  fromString : Option String
  toString : Option String
  deriving DecidableEq, Repr

/-- A changelog history entry: a creation timestamp string and items. -/
structure RawHistory where
  created : String
  items : List RawItem
  deriving DecidableEq, Repr

/-- The slice of a Jira issue that `analyze_multiple_issues` reads. -/
structure RawIssue where
  key : String
  summary : String
  grouping_field_value : Option String
  current_status : String
  created : String
  histories : List RawHistory
  deriving DecidableEq, Repr

/-- The normalization `x if x else 'None'` applied by `_get_status_changes`
to `fromString` / `toString` (both `None` and the empty string are falsy). -/
def orNone : Option String → String
  | none => "None"
  | some s => if s = "" then "None" else s

/-- The inner `for item in history.items` loop of `_get_status_changes`
for one history entry: every item with `field == 'status'` contributes a
`StatusChange` whose timestamp is `strptime(history.created, ...)`.
`parseTs` is the oracle standing for `datetime.strptime` with the fixed
format: `none` models a `ValueError` (`MalformedTimestampError`), which
aborts the whole extraction for this issue. -/
def item_changes (parseTs : String → Option ℚ) (created : String) :
    List RawItem → Except String (List StatusChange)
  | [] => .ok []
  | item :: rest =>
    if item.field = "status" then
      match parseTs created with
      | none => .error created
      | some ts =>
        match item_changes parseTs created rest with
        | .error e => .error e
        | .ok tail =>
          .ok (⟨orNone item.fromString, orNone item.toString, ts⟩ :: tail)
    else item_changes parseTs created rest

/-- The outer `for history in issue.changelog.histories` loop of
`_get_status_changes`, concatenating the items of each history in order;
the first malformed timestamp aborts the extraction. -/
def history_changes (parseTs : String → Option ℚ) :
    List RawHistory → Except String (List StatusChange)
  | [] => .ok []
  | h :: rest =>
    match item_changes parseTs h.created h.items with
    | .error e => .error e
    | .ok xs =>
      match history_changes parseTs rest with
      | .error e => .error e
      | .ok ys => .ok (xs ++ ys)

/-- Embedding of `_get_status_changes` (own.py lines 101-112): extract the
status changes of an issue's changelog and sort them by timestamp. -/
def get_status_changes (parseTs : String → Option ℚ) (issue : RawIssue) :
    Except String (List StatusChange) :=
  match history_changes parseTs issue.histories with
  | .error e => .error e
  | .ok l => .ok (sortChanges l)

/-- The per-issue record stored in the `results` dict by
`analyze_multiple_issues` (own.py lines 168-175); the constant
`grouping_field_name` entry is omitted. -/
structure IssueData where
  durations : DurationMap
  summary : String
  grouping_field_value : Option String
  current_status : String
  created : String
  deriving DecidableEq, Repr

/-- Python dict assignment `m[k] = v`: update the first entry with key
`k` in place, or append a new entry. -/
def alistSet {α : Type} : List (String × α) → String → α → List (String × α)
  | [], k, v => [(k, v)]
  | (k', v') :: rest, k, v =>
    if k' = k then (k', v) :: rest else (k', v') :: alistSet rest k v

/-- The processing of one issue inside the `for i, issue in enumerate`
loop of `analyze_multiple_issues` (own.py lines 161-175): extract and sort
the status changes, compute the durations, and build the results entry.
Any failure (in particular a malformed timestamp) is an `Except.error`,
the model of the exception caught at own.py line 176. -/
def analyze_issue (parseTs : String → Option ℚ) (now : ℚ) (issue : RawIssue) :
    Except String (String × IssueData) :=
  match get_status_changes parseTs issue with
  | .error e => .error e
  | .ok changes =>
    .ok (issue.key,
      { durations := calculate_status_durations now changes
        summary := issue.summary
        grouping_field_value := issue.grouping_field_value
        current_status := issue.current_status
        created := issue.created })

/-- Embedding of the analysis loop of `analyze_multiple_issues` (own.py
lines 154-181): each issue is processed in turn; a failing issue is
skipped (`except ...: continue`) and every successful issue is written
into the `results` dict. -/
def analyze_multiple_issues (parseTs : String → Option ℚ) (now : ℚ)
    (issues : List RawIssue) : List (String × IssueData) :=
  issues.foldl
    (fun results issue =>
      match analyze_issue parseTs now issue with
      | .error _ => results
      | .ok kv => alistSet results kv.1 kv.2)
    []

/-- One cell of the `aggregated` defaultdict of `print_aggregated_results`
(own.py line 252): `{'total_hours': 0.0, 'count': 0}`. -/
structure StatusAgg where
  total_hours : ℚ
  count : ℕ
  deriving DecidableEq, Repr

/-- The update performed for one `(status, hours)` pair at own.py lines
269-270: `aggregated[status]['total_hours'] += hours` and
`aggregated[status]['count'] += 1`, starting from the defaultdict
default. -/
def aggAdd : List (String × StatusAgg) → String → ℚ → List (String × StatusAgg)
  | [], s, h => [(s, ⟨h, 1⟩)]
  | (k, v) :: rest, s, h =>
    if k = s then (k, ⟨v.total_hours + h, v.count + 1⟩) :: rest
    else (k, v) :: aggAdd rest s h

/-- The per-status global accumulator `aggregated` built by the main loop
of `print_aggregated_results` over all issues and all of their duration
entries. -/
def aggregated_of (results : List (String × IssueData)) :
    List (String × StatusAgg) :=
  results.foldl
    (fun agg p => p.2.durations.foldl (fun agg2 q => aggAdd agg2 q.1 q.2) agg)
    []

/-- Lookup in the `aggregated` defaultdict (default `⟨0, 0⟩`). -/
def aggGet : List (String × StatusAgg) → String → StatusAgg
  | [], _ => ⟨0, 0⟩
  | (k, v) :: rest, s => if k = s then v else aggGet rest s

/-- One cell of the `category_stats` defaultdict of
`print_aggregated_results` (own.py lines 256-261). -/
structure CatStats where
  total_hours : ℚ
  count : ℕ
  issues : List String
  status_totals : DurationMap
  deriving DecidableEq, Repr

/-- The `category_stats` defaultdict default value. -/
def catDefault : CatStats := ⟨0, 0, [], []⟩

/-- Apply an update to the bucket of category `c`, creating the bucket
from the default if it does not exist yet (defaultdict semantics). -/
def updateCat :
    List (String × CatStats) → String → (CatStats → CatStats) →
      List (String × CatStats)
  | [], c, f => [(c, f catDefault)]
  | (k, v) :: rest, c, f =>
    if k = c then (k, f v) :: rest else (k, v) :: updateCat rest c f

/-- Lookup in the `category_stats` defaultdict. -/
def catGet : List (String × CatStats) → String → CatStats
  | [], _ => catDefault
  | (k, v) :: rest, s => if k = s then v else catGet rest s

/-- The bucket key of an issue: `issue_data['grouping_field_value'] or
'Not Set'` (own.py line 265) — a missing/null value folds to `'Not Set'`. -/
def category_of (d : IssueData) : String :=
  d.grouping_field_value.getD "Not Set"

/-- The body of the `for issue_key, issue_data in results.items()` loop of
`print_aggregated_results` restricted to `category_stats` (own.py lines
263-277): add the issue's per-status hours to the bucket's
`status_totals`, add its total to `total_hours`, bump `count`, and append
the key to `issues`. -/
def category_step (m : List (String × CatStats)) (key : String)
    (d : IssueData) : List (String × CatStats) :=
  updateCat m (category_of d) (fun s =>
    { total_hours := s.total_hours + dmSum d.durations
      count := s.count + 1
      issues := s.issues ++ [key]
      status_totals := d.durations.foldl (fun st q => dmAdd st q.1 q.2)
        s.status_totals })

/-- The `category_stats` buckets built by `print_aggregated_results` from
the analysis results. -/
def category_stats_of (results : List (String × IssueData)) :
    List (String × CatStats) :=
  results.foldl (fun m p => category_step m p.1 p.2) []

/-- The `while True` pagination loop of `get_issues_by_jql` (own.py lines
63-97). `fetchPage` is the oracle for one page request at a given
`startAt`: `Except.error` models any exception raised by the request
(caught at line 92, which logs and breaks, returning the accumulation).
After a successful page the results are extended and the loop stops once
`len(all_issues) >= total`; otherwise `start_at` advances by the page
size. The Python loop has no bound of its own, so the model carries a
`fuel` counter; running out of fuel returns the accumulation, which is
never hit in any terminating run considered here. -/
def fetch_loop {α : Type} (fetchPage : ℕ → Except String (List α))
    (total page_size : ℕ) :
    ℕ → ℕ → List α → List α
  | 0, _, acc => acc
  | fuel + 1, start_at, acc =>
    match fetchPage start_at with
    | .error _ => acc
    | .ok page =>
      let acc2 := acc ++ page
      if total ≤ acc2.length then acc2
      else fetch_loop fetchPage total page_size fuel (start_at + page_size) acc2

/-- Embedding of `get_issues_by_jql` (own.py lines 42-99). `count_result`
is the outcome of the initial count query (own.py lines 48-61): on error
the function logs and returns the empty `all_issues`; on success the
pagination loop runs starting at `start_at = 0` with an empty
accumulator. -/
def get_issues_by_jql {α : Type} (count_result : Except String ℕ)
    (fetchPage : ℕ → Except String (List α)) (page_size fuel : ℕ) : List α :=
  match count_result with
  | .error _ => []
  | .ok total => fetch_loop fetchPage total page_size fuel 0 []

/-- Concrete page oracle for the C8 witness: the requests at startAt 0 and
startAt 2 return two issues each, every later page request fails. -/
def fetchPageW : ℕ → Except String (List String) :=
  fun n =>
    if n = 0 then .ok ["CN-1", "CN-2"]
    else if n = 2 then .ok ["CN-3", "CN-4"]
    else .error "HTTP 500"

/-- Concrete timestamp parser oracle for the C9 witness: the string
`"bad"` fails to parse, everything else parses to time 0. -/
def parseTsW : String → Option ℚ :=
  fun s => if s = "bad" then none else some 0

/-- Concrete issue with a malformed changelog timestamp for C9. -/
def badIssueW : RawIssue :=
  { key := "CN-BAD"
    summary := "broken changelog"
    grouping_field_value := none
    current_status := "In Progress"
    created := "2024-01-01"
    histories := [⟨"bad", [⟨"status", some "New Issues", some "In Progress"⟩]⟩] }

/-- Concrete issue with a well-formed changelog for C9. -/
def goodIssueW : RawIssue :=
  { key := "CN-GOOD"
    summary := "fine"
    grouping_field_value := some "Platform"
    current_status := "Done"
    created := "2024-01-01"
    histories := [⟨"good", [⟨"status", none, some "Done"⟩]⟩] }

/-- Concrete aggregation input for the C7 counterexample: `CN-1` passed
through `'New Issues'` instantaneously (a 0.0 entry), `CN-2` spent 4 hours
there. -/
def c7resultsW : List (String × IssueData) :=
  [("CN-1",
    { durations := [("New Issues", 0), ("In Progress", 2)]
      summary := "a"
      grouping_field_value := none
      current_status := "Done"
      created := "" }),
   ("CN-2",
    { durations := [("New Issues", 4)]
      summary := "b"
      grouping_field_value := none
      current_status := "Done"
      created := "" })]

end JiraBot

namespace JiraBot

theorem dmSum_dmAdd : ∀ (m : DurationMap) (s : String) (v : ℚ),
    dmSum (dmAdd m s v) = dmSum m + v
  | [], s, v => by simp [dmAdd, dmSum]
  | (k, x) :: rest, s, v => by
    by_cases h : k = s
    · simp only [dmAdd, if_pos h, dmSum, List.map_cons, List.sum_cons]
      ring
    · simp only [dmAdd, if_neg h, dmSum, List.map_cons, List.sum_cons]
      have ih := dmSum_dmAdd rest s v
      simp only [dmSum] at ih
      rw [ih]
      ring

theorem getLastD_map {β : Type} (f : StatusChange → β) :
    ∀ (l : List StatusChange) (a : StatusChange),
      (l.map f).getLastD (f a) = f (l.getLastD a)
  | [], _ => rfl
  | b :: t, a => by
    rw [List.map_cons, List.getLastD_cons, List.getLastD_cons, getLastD_map f t b]

theorem foldl_replay_status : ∀ (l : List StatusChange) (st : ReplayState),
    (l.foldl replay_step st).current_status =
      (l.map StatusChange.to_status).getLastD st.current_status
  | [], _ => rfl
  | c :: t, st => by
    rw [List.foldl_cons, foldl_replay_status t, List.map_cons, List.getLastD_cons]
    rfl

theorem foldl_replay_time : ∀ (l : List StatusChange) (st : ReplayState),
    (l.foldl replay_step st).current_time =
      (l.map StatusChange.timestamp).getLastD st.current_time
  | [], _ => rfl
  | c :: t, st => by
    rw [List.foldl_cons, foldl_replay_time t, List.map_cons, List.getLastD_cons]
    rfl

theorem foldl_replay_sum : ∀ (l : List StatusChange) (st : ReplayState),
    dmSum (l.foldl replay_step st).durations =
      dmSum st.durations +
        ((l.foldl replay_step st).current_time - st.current_time) / 3600
  | [], st => by simp
  | c :: t, st => by
    rw [List.foldl_cons, foldl_replay_sum t (replay_step st c),
      show (replay_step st c).durations
          = dmAdd st.durations st.current_status
              ((c.timestamp - st.current_time) / 3600) from rfl,
      dmSum_dmAdd,
      show (replay_step st c).current_time = c.timestamp from rfl]
    ring

/-- Core accounting lemma for `_calculate_status_durations` on a non-empty
(arbitrary) transition list: the values of the result sum to the elapsed
hours from the first transition either to the last transition (when the
final `to_status` is `'Done'`) or to `now` (otherwise). -/
theorem calculate_sum_eq (now : ℚ) (first : StatusChange)
    (rest : List StatusChange) :
    dmSum (calculate_status_durations now (first :: rest)) =
      if (rest.getLastD first).to_status = "Done"
      then ((rest.getLastD first).timestamp - first.timestamp) / 3600
      else (now - first.timestamp) / 3600 := by
  have hstat := foldl_replay_status (first :: rest)
    ⟨"New Issues", first.timestamp, []⟩
  have htime := foldl_replay_time (first :: rest)
    ⟨"New Issues", first.timestamp, []⟩
  have hsum := foldl_replay_sum (first :: rest)
    ⟨"New Issues", first.timestamp, []⟩
  rw [List.map_cons, List.getLastD_cons, getLastD_map] at hstat
  rw [List.map_cons, List.getLastD_cons, getLastD_map] at htime
  simp only [calculate_status_durations]
  by_cases hdone : (rest.getLastD first).to_status = "Done"
  · rw [if_neg (by rw [hstat]; simpa using hdone), if_pos hdone]
    rw [hsum, htime]
    simp [dmSum]
  · rw [if_pos (by rw [hstat]; simpa using hdone), if_neg hdone]
    rw [dmSum_dmAdd, hsum, htime]
    simp only [dmSum, List.map_nil, List.sum_nil]
    ring

/-- C1: for every sorted non-empty sequence of status transitions, the sum
of all values in the `DurationMap` produced by `_calculate_status_durations`
equals the elapsed hours between the first transition's timestamp and the
last transition's timestamp when the final `to_status` is `'Done'`, and
between the first transition's timestamp and `now` otherwise. -/
theorem c1_duration_sum_total (now : ℚ) (first : StatusChange)
    (rest : List StatusChange)
    (hsorted : List.Pairwise
      (fun a b : StatusChange => a.timestamp ≤ b.timestamp) (first :: rest)) :
    dmSum (calculate_status_durations now (first :: rest)) =
      if (rest.getLastD first).to_status = "Done"
      then ((rest.getLastD first).timestamp - first.timestamp) / 3600
      else (now - first.timestamp) / 3600 :=
  calculate_sum_eq now first rest

/-- Witness for C1: the three-transition scenario ending in `'Done'` at
`t0 + 26h`, evaluated concretely: the durations sum to 26 hours. -/
theorem c1_duration_sum_total_witness :
    List.Pairwise (fun a b : StatusChange => a.timestamp ≤ b.timestamp)
      [(⟨"None", "New Issues", 0⟩ : StatusChange),
        ⟨"New Issues", "In Progress", 7200⟩,
        ⟨"In Progress", "Done", 93600⟩] ∧
    dmSum (calculate_status_durations 360000
      [⟨"None", "New Issues", 0⟩, ⟨"New Issues", "In Progress", 7200⟩,
        ⟨"In Progress", "Done", 93600⟩]) = 26 := by
  refine ⟨by decide, ?_⟩
  have h := c1_duration_sum_total 360000 ⟨"None", "New Issues", 0⟩
    [⟨"New Issues", "In Progress", 7200⟩, ⟨"In Progress", "Done", 93600⟩]
    (by decide)
  rw [h]
  norm_num +decide [List.getLastD_cons]

/-- Counterexample to C2 as stated: a ticket created at `0`, with
transitions `None → In Progress` at `3600` and `In Progress → Done` at
`7200`, analyzed at `now = 36000`, has duration sum 1 hour — which is
neither `now − creation` (10 hours) nor `now − first transition`
(9 hours) — and the gap between creation and the first transition is not
attributed to the initial status (`'New Issues'` holds 0 hours). -/
theorem c2_sum_now_counterexample :
    dmSum (calculate_status_durations 36000
        [⟨"None", "In Progress", 3600⟩, ⟨"In Progress", "Done", 7200⟩]) = 1 ∧
    dmGet (calculate_status_durations 36000
        [⟨"None", "In Progress", 3600⟩, ⟨"In Progress", "Done", 7200⟩])
      "New Issues" = 0 ∧
    (1 : ℚ) ≠ (36000 - 0) / 3600 ∧
    (1 : ℚ) ≠ (36000 - 3600) / 3600 := by
  refine ⟨?_, ?_, by norm_num, by norm_num⟩ <;>
    norm_num +decide [calculate_status_durations, replay_step, dmAdd, dmSum, dmGet]

/-- C2 (amended): for every ticket with at least one transition whose
final status is not `'Done'`, the sum of all `DurationMap` entries equals
`now` minus the first transition's timestamp — the effective start time
used by the replay. The ticket's creation time is not an input of the
calculation at all, so the gap between creation and the first transition
is counted in no status (in particular it is not attributed to the initial
status); and for tickets whose final status is `'Done'` the sum stops at
the last transition instead of `now`. -/
theorem c2_amended_sum (now : ℚ) (first : StatusChange)
    (rest : List StatusChange)
    (hnotdone : (rest.getLastD first).to_status ≠ "Done") :
    dmSum (calculate_status_durations now (first :: rest)) =
      (now - first.timestamp) / 3600 := by
  rw [calculate_sum_eq, if_neg hnotdone]

/-- Witness for the amended C2: a single transition into `'In Progress'`
at `3600`, analyzed at `36000`: the sum is `(36000 − 3600) / 3600`. -/
theorem c2_amended_sum_witness :
    (([] : List StatusChange).getLastD
        (⟨"None", "In Progress", 3600⟩ : StatusChange)).to_status ≠ "Done" ∧
    dmSum (calculate_status_durations 36000 [⟨"None", "In Progress", 3600⟩]) =
      (36000 - 3600) / 3600 :=
  ⟨by decide, c2_amended_sum 36000 ⟨"None", "In Progress", 3600⟩ [] (by decide)⟩

/-- C3: the scenario `[(None → New Issues, t0), (New Issues → In Progress,
t0+2h), (In Progress → Done, t0+26h)]` yields exactly
`{New Issues: 2.0, In Progress: 24.0}` with total 26 hours, for every
value of the wall clock `now` and every base timestamp `t0`: since the
final status is `'Done'`, no trailing time up to `now` is accrued. -/
theorem c3_done_scenario (now t0 : ℚ) :
    calculate_status_durations now
        [⟨"None", "New Issues", t0⟩, ⟨"New Issues", "In Progress", t0 + 7200⟩,
          ⟨"In Progress", "Done", t0 + 93600⟩] =
      [("New Issues", 2), ("In Progress", 24)] ∧
    dmSum (calculate_status_durations now
        [⟨"None", "New Issues", t0⟩, ⟨"New Issues", "In Progress", t0 + 7200⟩,
          ⟨"In Progress", "Done", t0 + 93600⟩]) = 26 := by
  constructor <;>
    norm_num +decide [calculate_status_durations, replay_step, dmAdd, dmSum]

/-- Counterexample to C4 as stated: a ticket with no transitions, created
at `t0 = 0` and analyzed at `now = 36000` (`t0 + 10h`), yields the empty
`DurationMap`, not `{New Issues: 10.0}`. -/
theorem c4_empty_counterexample :
    calculate_status_durations 36000 [] = [] ∧
    dmGet (calculate_status_durations 36000 []) "New Issues" ≠ 10 := by
  refine ⟨rfl, ?_⟩
  norm_num [calculate_status_durations, dmGet]

/-- C4 (amended): a ticket with an empty transition sequence yields the
empty `DurationMap`, whatever the analysis time: `_calculate_status_durations`
returns its freshly created empty accumulator before touching the clock. -/
theorem c4_amended_empty (now : ℚ) :
    calculate_status_durations now [] = [] := rfl

theorem sortChanges_trans :
    ∀ a b c : StatusChange,
      decide (a.timestamp ≤ b.timestamp) → decide (b.timestamp ≤ c.timestamp) →
      decide (a.timestamp ≤ c.timestamp) := by
  intro a b c hab hbc
  simp only [decide_eq_true_eq] at hab hbc ⊢
  exact le_trans hab hbc

theorem sortChanges_total :
    ∀ a b : StatusChange,
      decide (a.timestamp ≤ b.timestamp) || decide (b.timestamp ≤ a.timestamp) := by
  intro a b
  simpa [Bool.or_eq_true, decide_eq_true_eq] using le_total a.timestamp b.timestamp

theorem sortChanges_pairwise (l : List StatusChange) :
    List.Pairwise (fun a b : StatusChange => a.timestamp ≤ b.timestamp)
      (sortChanges l) := by
  have h := List.sorted_mergeSort sortChanges_trans sortChanges_total l
  exact h.imp (fun hab => by simpa using hab)

/-- C5: the replayer sorts before calculating, so feeding it a transition
list out of chronological order yields the same `DurationMap` as feeding
it the pre-sorted list, the sorted list is ascending by timestamp, and the
sort is stable: for every timestamp `t`, the subsequence of transitions
carrying `t` is exactly the one of the input, in the original order. -/
theorem c5_sort_correctness (now : ℚ) (l : List StatusChange) :
    List.Pairwise (fun a b : StatusChange => a.timestamp ≤ b.timestamp)
      (sortChanges l) ∧
    analyze_changes now l = analyze_changes now (sortChanges l) ∧
    ∀ t : ℚ,
      (sortChanges l).filter (fun c => decide (c.timestamp = t)) =
        l.filter (fun c => decide (c.timestamp = t)) := by
  refine ⟨sortChanges_pairwise l, ?_, ?_⟩
  · have hid : sortChanges (sortChanges l) = sortChanges l :=
      List.mergeSort_of_sorted
        ((sortChanges_pairwise l).imp (fun hab => by simpa using hab))
    simp only [analyze_changes, hid]
  · intro t
    have heq :
        (l.filter (fun c => decide (c.timestamp = t))).filter
            (fun c => decide (c.timestamp = t)) =
          l.filter (fun c => decide (c.timestamp = t)) :=
      List.filter_eq_self.mpr (fun a ha => (List.mem_filter.mp ha).2)
    have hp : (l.filter (fun c => decide (c.timestamp = t))).Pairwise
        (fun a b => decide (a.timestamp ≤ b.timestamp)) := by
      apply List.pairwise_of_forall_mem_list
      intro a ha b hb
      have ha' : a.timestamp = t := by
        simpa using (List.mem_filter.mp ha).2
      have hb' : b.timestamp = t := by
        simpa using (List.mem_filter.mp hb).2
      simp [ha', hb']
    have h1 : List.Sublist (l.filter (fun c => decide (c.timestamp = t)))
        (sortChanges l) :=
      List.sublist_mergeSort sortChanges_trans sortChanges_total hp
        (List.filter_sublist l)
    have h2 := h1.filter (fun c => decide (c.timestamp = t))
    rw [heq] at h2
    have hlen :
        ((sortChanges l).filter (fun c => decide (c.timestamp = t))).length =
          (l.filter (fun c => decide (c.timestamp = t))).length :=
      ((List.mergeSort_perm l _).filter _).length_eq
    exact (h2.eq_of_length hlen.symm).symm

theorem fetch_loop_pages {α : Type} :
    ∀ (ps : List (List α)) (fetchPage : ℕ → Except String (List α))
      (total page_size fuel start_at : ℕ) (acc : List α) (e : String),
      (∀ i (h : i < ps.length),
        fetchPage (start_at + i * page_size) = .ok (ps.get ⟨i, h⟩)) →
      (∀ i, i < ps.length →
        (acc ++ (ps.take (i + 1)).flatten).length < total) →
      fetchPage (start_at + ps.length * page_size) = .error e →
      ps.length < fuel →
      fetch_loop fetchPage total page_size fuel start_at acc =
        acc ++ ps.flatten
  | [], fetchPage, total, page_size, fuel, start_at, acc, e => by
    intro _ _ herr hfuel
    obtain ⟨f, rfl⟩ : ∃ f, fuel = f + 1 := ⟨fuel - 1, by omega⟩
    have herr' : fetchPage start_at = .error e := by simpa using herr
    rw [fetch_loop, herr']
    simp
  | p :: ps', fetchPage, total, page_size, fuel, start_at, acc, e => by
    intro hpages hprefix herr hfuel
    obtain ⟨f, rfl⟩ : ∃ f, fuel = f + 1 := ⟨fuel - 1, by omega⟩
    rw [fetch_loop]
    have h0 : fetchPage start_at = .ok p := by
      have := hpages 0 (by simp)
      simpa using this
    rw [h0]
    dsimp only
    have hlt : ¬ total ≤ (acc ++ p).length := by
      have := hprefix 0 (by simp)
      simpa using this
    rw [if_neg hlt]
    have hrec := fetch_loop_pages ps' fetchPage total page_size f
      (start_at + page_size) (acc ++ p) e
      (fun i h => by
        have := hpages (i + 1) (by simpa using Nat.succ_lt_succ h)
        rw [show start_at + (i + 1) * page_size =
            start_at + page_size + i * page_size by ring] at this
        exact this)
      (fun i h => by
        have := hprefix (i + 1) (by simpa using Nat.succ_lt_succ h)
        simpa [List.take_cons, List.flatten_cons, List.append_assoc]
          using this)
      (by
        rw [show start_at + page_size + ps'.length * page_size =
            start_at + (p :: ps').length * page_size by
          simp [List.length_cons]; ring]
        exact herr)
      (by simpa using Nat.lt_of_succ_lt_succ (by simpa using hfuel))
    rw [hrec]
    simp [List.flatten_cons, List.append_assoc]

/-- C8: `get_issues_by_jql` never lets a fetch failure escape: a failed
count query returns the empty list, and whenever the first `k` page
requests succeed (each leaving the accumulation short of the total) and
the request for page `k + 1` fails, pagination stops and exactly the
tickets accumulated from the `k` earlier pages are returned. -/
theorem c8_fetch_failure {α : Type} (ps : List (List α))
    (fetchPage : ℕ → Except String (List α)) (page_size fuel total : ℕ)
    (e e2 : String) :
    get_issues_by_jql (.error e2) fetchPage page_size fuel = ([] : List α) ∧
    ((∀ i (h : i < ps.length),
        fetchPage (i * page_size) = .ok (ps.get ⟨i, h⟩)) →
      (∀ i, i < ps.length → ((ps.take (i + 1)).flatten).length < total) →
      fetchPage (ps.length * page_size) = .error e →
      ps.length < fuel →
      get_issues_by_jql (.ok total) fetchPage page_size fuel = ps.flatten) := by
  constructor
  · rfl
  · intro hpages hprefix herr hfuel
    show fetch_loop fetchPage total page_size fuel 0 [] = ps.flatten
    have h := fetch_loop_pages ps fetchPage total page_size fuel 0 [] e
      (fun i hi => by simpa using hpages i hi)
      (fun i hi => by simpa using hprefix i hi)
      (by simpa using herr) hfuel
    simpa using h

/-- Witness for C8: a concrete oracle serving five expected issues in
pages of two; the first two page requests succeed and the third fails, so
the failed count query returns `[]` and the page-3 failure returns exactly
the four issues accumulated from pages 1 and 2. -/
theorem c8_fetch_failure_witness :
    get_issues_by_jql (Except.error "boom") fetchPageW 2 10 = ([] : List String) ∧
    get_issues_by_jql (Except.ok 5) fetchPageW 2 10 =
      ["CN-1", "CN-2", "CN-3", "CN-4"] := by
  have h := c8_fetch_failure [["CN-1", "CN-2"], ["CN-3", "CN-4"]] fetchPageW
    2 10 5 "HTTP 500" "boom"
  refine ⟨h.1, ?_⟩
  have h2 := h.2
    (fun i hi => by
      have hi2 : i < 2 := by simpa using hi
      interval_cases i <;> rfl)
    (by decide) rfl (by decide)
  exact h2

theorem item_changes_error (parseTs : String → Option ℚ) (created : String)
    (hparse : parseTs created = none) :
    ∀ items : List RawItem, (∃ item ∈ items, item.field = "status") →
      item_changes parseTs created items = .error created := by
  intro items
  induction items with
  | nil => rintro ⟨item, hmem, _⟩; cases hmem
  | cons it rest ih =>
    rintro ⟨item, hmem, hfield⟩
    by_cases hf : it.field = "status"
    · simp [item_changes, hf, hparse]
    · have hrest : item ∈ rest := by
        rcases List.mem_cons.mp hmem with h | h
        · exact absurd (h ▸ hfield) hf
        · exact h
      simp [item_changes, hf, ih ⟨item, hrest, hfield⟩]

theorem history_changes_error (parseTs : String → Option ℚ) :
    ∀ (histories : List RawHistory) (h : RawHistory), h ∈ histories →
      parseTs h.created = none → (∃ item ∈ h.items, item.field = "status") →
      ∃ e, history_changes parseTs histories = .error e := by
  intro histories
  induction histories with
  | nil => intro h hmem; cases hmem
  | cons hd rest ih =>
    intro h hmem hparse hitem
    cases hic : item_changes parseTs hd.created hd.items with
    | error e => exact ⟨e, by simp [history_changes, hic]⟩
    | ok xs =>
      rcases List.mem_cons.mp hmem with rfl | hmem'
      · rw [item_changes_error parseTs h.created hparse h.items hitem] at hic
        cases hic
      · obtain ⟨e, he⟩ := ih h hmem' hparse hitem
        exact ⟨e, by simp [history_changes, hic, he]⟩

theorem analyze_issue_error (parseTs : String → Option ℚ) (now : ℚ)
    (issue : RawIssue) (h : RawHistory) (hmem : h ∈ issue.histories)
    (hparse : parseTs h.created = none)
    (hitem : ∃ item ∈ h.items, item.field = "status") :
    ∃ e, analyze_issue parseTs now issue = .error e := by
  obtain ⟨e, he⟩ :=
    history_changes_error parseTs issue.histories h hmem hparse hitem
  exact ⟨e, by simp [analyze_issue, get_status_changes, he]⟩

theorem analyze_skip (parseTs : String → Option ℚ) (now : ℚ)
    (pre post : List RawIssue) (bad : RawIssue)
    (hbad : ∃ e, analyze_issue parseTs now bad = .error e) :
    analyze_multiple_issues parseTs now (pre ++ bad :: post) =
      analyze_multiple_issues parseTs now (pre ++ post) := by
  obtain ⟨e, he⟩ := hbad
  simp only [analyze_multiple_issues, List.foldl_append, List.foldl_cons, he]

theorem alistSet_keys {α : Type} :
    ∀ (m : List (String × α)) (k : String) (v : α) (a : String),
      a ∈ (alistSet m k v).map Prod.fst → a = k ∨ a ∈ m.map Prod.fst := by
  intro m k v a
  induction m with
  | nil => intro h; simpa [alistSet] using h
  | cons p rest ih =>
    obtain ⟨k', v'⟩ := p
    by_cases hk : k' = k
    · intro h
      have heq : alistSet ((k', v') :: rest) k v = (k', v) :: rest := by
        simp only [alistSet]
        rw [if_pos hk]
      rw [heq] at h
      rcases List.mem_cons.mp h with h | h
      · exact Or.inl (by simpa [hk] using h)
      · exact Or.inr (List.mem_cons_of_mem _ h)
    · intro h
      have heq : alistSet ((k', v') :: rest) k v =
          (k', v') :: alistSet rest k v := by
        simp only [alistSet]
        rw [if_neg hk]
      rw [heq] at h
      rcases List.mem_cons.mp h with h | h
      · exact Or.inr (by simp [h])
      · rcases ih h with h | h
        · exact Or.inl h
        · exact Or.inr (by simp [h])

theorem analyze_keys (parseTs : String → Option ℚ) (now : ℚ) :
    ∀ (issues : List RawIssue) (acc : List (String × IssueData)) (a : String),
      a ∈ (issues.foldl
          (fun results issue =>
            match analyze_issue parseTs now issue with
            | .error _ => results
            | .ok kv => alistSet results kv.1 kv.2) acc).map Prod.fst →
      a ∈ acc.map Prod.fst ∨ a ∈ issues.map RawIssue.key := by
  intro issues
  induction issues with
  | nil => intro acc a h; exact Or.inl h
  | cons issue rest ih =>
    intro acc a h
    rw [List.foldl_cons] at h
    cases hai : analyze_issue parseTs now issue with
    | error e =>
      rw [hai] at h
      rcases ih _ a h with h | h
      · exact Or.inl h
      · exact Or.inr (List.mem_cons_of_mem _ h)
    | ok kv =>
      rw [hai] at h
      rcases ih _ a h with h | h
      · rcases alistSet_keys acc kv.1 kv.2 a h with h | h
        · have hkey : kv.1 = issue.key := by
            simp only [analyze_issue] at hai
            cases hgc : get_status_changes parseTs issue with
            | error e => rw [hgc] at hai; cases hai
            | ok cs =>
              rw [hgc] at hai
              cases hai
              rfl
          exact Or.inr (by simp [h, hkey])
        · exact Or.inl h
      · exact Or.inr (List.mem_cons_of_mem _ h)

/-- C9: a malformed transition timestamp in one ticket's changelog makes
`analyze_issue` fail for that ticket only: the batch result is exactly the
result of analyzing the remaining tickets, and (when no other ticket
shares its key) the failed ticket's key is absent from the result map. -/
theorem c9_skip_failed_ticket (parseTs : String → Option ℚ) (now : ℚ)
    (pre post : List RawIssue) (bad : RawIssue) (hist : RawHistory)
    (item : RawItem) (hhist : hist ∈ bad.histories)
    (hparse : parseTs hist.created = none) (hitem : item ∈ hist.items)
    (hfield : item.field = "status") :
    (∃ e, analyze_issue parseTs now bad = .error e) ∧
    analyze_multiple_issues parseTs now (pre ++ bad :: post) =
      analyze_multiple_issues parseTs now (pre ++ post) ∧
    (bad.key ∉ (pre ++ post).map RawIssue.key →
      bad.key ∉
        (analyze_multiple_issues parseTs now (pre ++ bad :: post)).map
          Prod.fst) := by
  have herror :=
    analyze_issue_error parseTs now bad hist hhist hparse ⟨item, hitem, hfield⟩
  have hskip := analyze_skip parseTs now pre post bad herror
  refine ⟨herror, hskip, ?_⟩
  intro hfresh hmem
  rw [hskip] at hmem
  rcases analyze_keys parseTs now (pre ++ post) [] bad.key hmem with h | h
  · cases h
  · exact hfresh h

/-- Witness for C9: the concrete batch `[goodIssueW, badIssueW]`, where
`badIssueW`'s only changelog timestamp fails to parse, yields the same
result map as the batch without the bad ticket, and `CN-BAD` is absent. -/
theorem c9_skip_failed_ticket_witness :
    analyze_multiple_issues parseTsW 0 [goodIssueW, badIssueW] =
      analyze_multiple_issues parseTsW 0 [goodIssueW] ∧
    "CN-BAD" ∉
      (analyze_multiple_issues parseTsW 0 [goodIssueW, badIssueW]).map
        Prod.fst := by
  have h := c9_skip_failed_ticket parseTsW 0 [goodIssueW] [] badIssueW
    ⟨"bad", [⟨"status", some "New Issues", some "In Progress"⟩]⟩
    ⟨"status", some "New Issues", some "In Progress"⟩
    (by decide) rfl (by decide) rfl
  exact ⟨h.2.1, h.2.2 (by decide)⟩

theorem updateCat_count_sum (c : String) (f : CatStats → CatStats)
    (hf : ∀ s, (f s).count = s.count + 1) :
    ∀ m : List (String × CatStats),
      ((updateCat m c f).map (fun p => p.2.count)).sum =
        (m.map (fun p => p.2.count)).sum + 1
  | [] => by simp [updateCat, hf, catDefault]
  | (k, v) :: rest => by
    by_cases hk : k = c
    · have heq : updateCat ((k, v) :: rest) c f = (k, f v) :: rest := by
        simp only [updateCat]
        rw [if_pos hk]
      rw [heq]
      simp only [List.map_cons, List.sum_cons, hf v]
      omega
    · have heq : updateCat ((k, v) :: rest) c f =
          (k, v) :: updateCat rest c f := by
        simp only [updateCat]
        rw [if_neg hk]
      rw [heq]
      simp only [List.map_cons, List.sum_cons, updateCat_count_sum c f hf rest]
      omega

theorem updateCat_issue_count (c : String) (key k : String)
    (f : CatStats → CatStats) (hf : ∀ s, (f s).issues = s.issues ++ [key]) :
    ∀ m : List (String × CatStats),
      ((updateCat m c f).map (fun p => p.2.issues.count k)).sum =
        (m.map (fun p => p.2.issues.count k)).sum +
          (if key = k then 1 else 0)
  | [] => by
    by_cases h : key = k <;>
      simp [updateCat, hf, catDefault, List.count_cons, h]
  | (k', v) :: rest => by
    by_cases hk : k' = c
    · have heq : updateCat ((k', v) :: rest) c f = (k', f v) :: rest := by
        simp only [updateCat]
        rw [if_pos hk]
      rw [heq]
      simp only [List.map_cons, List.sum_cons, hf v, List.count_append,
        List.count_cons, List.count_nil]
      by_cases h : key = k <;> simp [h] <;> omega
    · have heq : updateCat ((k', v) :: rest) c f =
          (k', v) :: updateCat rest c f := by
        simp only [updateCat]
        rw [if_neg hk]
      rw [heq]
      simp only [List.map_cons, List.sum_cons,
        updateCat_issue_count c key k f hf rest]
      omega

theorem category_stats_count_sum :
    ∀ (results : List (String × IssueData)) (m : List (String × CatStats)),
      ((results.foldl (fun m2 p => category_step m2 p.1 p.2) m).map
          (fun p => p.2.count)).sum =
        (m.map (fun p => p.2.count)).sum + results.length
  | [], m => by simp
  | p :: rest, m => by
    rw [List.foldl_cons, category_stats_count_sum rest]
    rw [show category_step m p.1 p.2 =
        updateCat m (category_of p.2) _ from rfl]
    rw [updateCat_count_sum (category_of p.2) _ (fun s => rfl) m]
    simp only [List.length_cons]
    omega

theorem category_stats_issue_count :
    ∀ (results : List (String × IssueData)) (m : List (String × CatStats))
      (k : String),
      ((results.foldl (fun m2 p => category_step m2 p.1 p.2) m).map
          (fun p => p.2.issues.count k)).sum =
        (m.map (fun p => p.2.issues.count k)).sum +
          (results.map Prod.fst).count k
  | [], m, k => by simp
  | p :: rest, m, k => by
    rw [List.foldl_cons, category_stats_issue_count rest]
    rw [show category_step m p.1 p.2 =
        updateCat m (category_of p.2) _ from rfl]
    rw [updateCat_issue_count (category_of p.2) p.1 k _ (fun s => rfl) m]
    simp only [List.map_cons, List.count_cons]
    by_cases h : p.1 = k <;> simp [h] <;> omega

theorem catGet_updateCat_self (c : String) (f : CatStats → CatStats) :
    ∀ m : List (String × CatStats),
      catGet (updateCat m c f) c = f (catGet m c)
  | [] => by simp [updateCat, catGet]
  | (k, v) :: rest => by
    by_cases hk : k = c
    · have heq : updateCat ((k, v) :: rest) c f = (k, f v) :: rest := by
        simp only [updateCat]
        rw [if_pos hk]
      rw [heq]
      simp [catGet, hk]
    · have heq : updateCat ((k, v) :: rest) c f =
          (k, v) :: updateCat rest c f := by
        simp only [updateCat]
        rw [if_neg hk]
      rw [heq]
      simp [catGet, hk, catGet_updateCat_self c f rest]

theorem catGet_updateCat_ne (c c' : String) (hne : c ≠ c')
    (f : CatStats → CatStats) :
    ∀ m : List (String × CatStats),
      catGet (updateCat m c' f) c = catGet m c
  | [] => by simp [updateCat, catGet, Ne.symm hne]
  | (k, v) :: rest => by
    by_cases hk : k = c'
    · have heq : updateCat ((k, v) :: rest) c' f = (k, f v) :: rest := by
        simp only [updateCat]
        rw [if_pos hk]
      rw [heq]
      have hkc : ¬k = c := fun h => hne (by rw [← h, hk])
      simp [catGet, hkc]
    · have heq : updateCat ((k, v) :: rest) c' f =
          (k, v) :: updateCat rest c' f := by
        simp only [updateCat]
        rw [if_neg hk]
      rw [heq]
      by_cases hkc : k = c
      · simp [catGet, hkc]
      · simp [catGet, hkc, catGet_updateCat_ne c c' hne f rest]

theorem mem_issues_category_step (m : List (String × CatStats))
    (k' : String) (d : IssueData) (c k : String)
    (h : k ∈ (catGet m c).issues) :
    k ∈ (catGet (category_step m k' d) c).issues := by
  by_cases hc : c = category_of d
  · have h' : k ∈ (catGet m (category_of d)).issues := hc ▸ h
    rw [show category_step m k' d = updateCat m (category_of d) _ from rfl,
      hc, catGet_updateCat_self]
    exact List.mem_append_left _ h'
  · rw [show category_step m k' d = updateCat m (category_of d) _ from rfl,
      catGet_updateCat_ne c (category_of d) hc]
    exact h

theorem mem_issues_foldl :
    ∀ (results : List (String × IssueData)) (m : List (String × CatStats))
      (c k : String), k ∈ (catGet m c).issues →
      k ∈ (catGet (results.foldl (fun m2 p => category_step m2 p.1 p.2) m)
          c).issues
  | [], _, _, _, h => h
  | p :: rest, m, c, k, h => by
    rw [List.foldl_cons]
    exact mem_issues_foldl rest _ c k (mem_issues_category_step m p.1 p.2 c k h)

/-- C6: the category buckets partition the analyzed tickets. For results
with distinct ticket keys: the bucket counts sum to the number of tickets;
every ticket key occurs in exactly one bucket's issue list (the total
number of occurrences of the key across all buckets is 1); and a ticket
whose grouping-field value is missing/null lands in the `'Not Set'`
bucket. -/
theorem c6_category_partition (results : List (String × IssueData))
    (hkeys : (results.map Prod.fst).Nodup) :
    ((category_stats_of results).map (fun p => p.2.count)).sum =
      results.length ∧
    (∀ k, k ∈ results.map Prod.fst →
      ((category_stats_of results).map
          (fun p => p.2.issues.count k)).sum = 1) ∧
    (∀ k d, (k, d) ∈ results → d.grouping_field_value = none →
      k ∈ (catGet (category_stats_of results) "Not Set").issues) := by
  refine ⟨?_, ?_, ?_⟩
  · have h := category_stats_count_sum results []
    simpa [category_stats_of] using h
  · intro k hk
    have h := category_stats_issue_count results [] k
    have hcount : (results.map Prod.fst).count k = 1 :=
      List.count_eq_one_of_mem hkeys hk
    simpa [category_stats_of, hcount] using h
  · intro k d hmem hnone
    obtain ⟨pre, post, rfl⟩ := List.append_of_mem hmem
    rw [category_stats_of, List.foldl_append, List.foldl_cons]
    apply mem_issues_foldl
    have hcat : category_of d = "Not Set" := by
      simp [category_of, hnone]
    rw [show category_step (pre.foldl (fun m2 p => category_step m2 p.1 p.2) [])
          k d =
        updateCat (pre.foldl (fun m2 p => category_step m2 p.1 p.2) [])
          (category_of d) _ from rfl,
      hcat, catGet_updateCat_self]
    exact List.mem_append_right _ (List.mem_singleton.mpr rfl)

/-- Witness for C6: the two-ticket aggregation input `c7resultsW`, whose
tickets both lack a grouping value: bucket counts sum to 2, `CN-1` occurs
exactly once across all buckets, and it lies in the `'Not Set'` bucket. -/
theorem c6_category_partition_witness :
    (c7resultsW.map Prod.fst).Nodup ∧
    ((category_stats_of c7resultsW).map (fun p => p.2.count)).sum = 2 ∧
    ((category_stats_of c7resultsW).map
        (fun p => p.2.issues.count "CN-1")).sum = 1 ∧
    "CN-1" ∈ (catGet (category_stats_of c7resultsW) "Not Set").issues := by
  have h := c6_category_partition c7resultsW (by decide)
  refine ⟨by decide, h.1, h.2.1 "CN-1" (by decide), ?_⟩
  exact h.2.2 "CN-1"
    ⟨[("New Issues", 0), ("In Progress", 2)], "a", none, "Done", ""⟩
    (by simp [c7resultsW]) rfl

theorem aggGet_aggAdd :
    ∀ (m : List (String × StatusAgg)) (k : String) (h : ℚ) (s : String),
      aggGet (aggAdd m k h) s =
        if s = k then
          ⟨(aggGet m s).total_hours + h, (aggGet m s).count + 1⟩
        else aggGet m s
  | [], k, h, s => by
    by_cases hs : s = k
    · subst hs
      simp [aggAdd, aggGet]
    · have hs' : ¬k = s := fun hcon => hs hcon.symm
      simp [aggAdd, aggGet, hs, hs']
  | (k', v) :: rest, k, h, s => by
    by_cases hk : k' = k
    · subst hk
      have heq : aggAdd ((k', v) :: rest) k' h =
          (k', ⟨v.total_hours + h, v.count + 1⟩) :: rest := by
        simp [aggAdd]
      rw [heq]
      by_cases hs : k' = s
      · subst hs
        simp [aggGet]
      · have hs' : ¬s = k' := fun hcon => hs hcon.symm
        simp [aggGet, hs, hs']
    · have heq : aggAdd ((k', v) :: rest) k h =
          (k', v) :: aggAdd rest k h := by
        simp only [aggAdd]
        rw [if_neg hk]
      rw [heq]
      by_cases hs : k' = s
      · have hsk : ¬s = k := fun hcon => hk (hs.trans hcon)
        simp [aggGet, hs, hsk]
      · simp [aggGet, hs, aggGet_aggAdd rest k h s]

theorem aggGet_foldl_durations :
    ∀ (d : DurationMap) (m : List (String × StatusAgg)) (s : String),
      aggGet (d.foldl (fun agg2 q => aggAdd agg2 q.1 q.2) m) s =
        ⟨(aggGet m s).total_hours +
            ((d.filter (fun q => decide (q.1 = s))).map Prod.snd).sum,
          (aggGet m s).count + d.countP (fun q => decide (q.1 = s))⟩
  | [], m, s => by simp
  | q :: rest, m, s => by
    obtain ⟨qk, qv⟩ := q
    rw [List.foldl_cons, aggGet_foldl_durations rest, aggGet_aggAdd]
    by_cases hq : qk = s
    · subst hq
      rw [if_pos rfl]
      have hfil : ((qk, qv) :: rest).filter (fun q => decide (q.1 = qk)) =
          (qk, qv) :: rest.filter (fun q => decide (q.1 = qk)) := by
        simp [List.filter_cons]
      have hcnt : ((qk, qv) :: rest).countP (fun q => decide (q.1 = qk)) =
          rest.countP (fun q => decide (q.1 = qk)) + 1 := by
        simp [List.countP_cons]
      rw [hfil, hcnt]
      simp only [List.map_cons, List.sum_cons, StatusAgg.mk.injEq]
      exact ⟨by ring, by omega⟩
    · rw [if_neg (fun hcon => hq hcon.symm)]
      have hfil : ((qk, qv) :: rest).filter (fun q => decide (q.1 = s)) =
          rest.filter (fun q => decide (q.1 = s)) := by
        simp [List.filter_cons, hq]
      have hcnt : ((qk, qv) :: rest).countP (fun q => decide (q.1 = s)) =
          rest.countP (fun q => decide (q.1 = s)) := by
        simp [List.countP_cons, hq]
      rw [hfil, hcnt]

theorem aggGet_aggregated_of :
    ∀ (results : List (String × IssueData))
      (m : List (String × StatusAgg)) (s : String),
      aggGet (results.foldl
          (fun agg p =>
            p.2.durations.foldl (fun agg2 q => aggAdd agg2 q.1 q.2) agg)
          m) s =
        ⟨(aggGet m s).total_hours +
            (results.map (fun p =>
              ((p.2.durations.filter (fun q => decide (q.1 = s))).map
                  Prod.snd).sum)).sum,
          (aggGet m s).count +
            (results.map (fun p =>
              p.2.durations.countP (fun q => decide (q.1 = s)))).sum⟩
  | [], m, s => by simp
  | p :: rest, m, s => by
    rw [List.foldl_cons, aggGet_aggregated_of rest, aggGet_foldl_durations]
    simp only [List.map_cons, List.sum_cons, StatusAgg.mk.injEq]
    refine ⟨by ring, by omega⟩

theorem filter_key_sum_eq_dmGet :
    ∀ (d : DurationMap) (s : String), (dmKeys d).Nodup →
      ((d.filter (fun q => decide (q.1 = s))).map Prod.snd).sum = dmGet d s
  | [], s, _ => by simp [dmGet]
  | (k, v) :: rest, s, h => by
    obtain ⟨hk, hrest⟩ := List.nodup_cons.mp h
    by_cases hks : k = s
    · subst hks
      have hmt : rest.filter (fun q => decide (q.1 = k)) = [] := by
        rw [List.filter_eq_nil_iff]
        intro q hq
        simp only [decide_eq_true_eq]
        intro hcon
        apply hk
        rw [← hcon]
        exact List.mem_map.mpr ⟨q, hq, rfl⟩
      simp [List.filter_cons, hmt, dmGet]
    · simp [List.filter_cons, hks, dmGet, filter_key_sum_eq_dmGet rest s hrest]

theorem countP_key_eq :
    ∀ (d : DurationMap) (s : String), (dmKeys d).Nodup →
      d.countP (fun q => decide (q.1 = s)) = if s ∈ dmKeys d then 1 else 0
  | [], s, _ => by simp [dmKeys]
  | (k, v) :: rest, s, h => by
    obtain ⟨hk, hrest⟩ := List.nodup_cons.mp h
    by_cases hks : k = s
    · subst hks
      simp [List.countP_cons, countP_key_eq rest k hrest, hk, dmKeys]
    · have hks' : ¬s = k := fun hcon => hks hcon.symm
      have hcnt : ((k, v) :: rest).countP (fun q => decide (q.1 = s)) =
          rest.countP (fun q => decide (q.1 = s)) := by
        simp [List.countP_cons, hks]
      rw [hcnt, countP_key_eq rest s hrest,
        show dmKeys ((k, v) :: rest) = k :: dmKeys rest from rfl]
      have hmem : s ∈ k :: dmKeys rest ↔ s ∈ dmKeys rest := by
        simp [List.mem_cons, hks']
      by_cases hsm : s ∈ dmKeys rest
      · rw [if_pos hsm, if_pos (hmem.mpr hsm)]
      · rw [if_neg hsm, if_neg (fun hcon => hsm (hmem.mp hcon))]

theorem sum_map_ite_mem {α : Type} (q : α → Prop) [DecidablePred q] :
    ∀ l : List α,
      (l.map (fun x => if q x then (1 : ℕ) else 0)).sum =
        (l.filter (fun x => decide (q x))).length
  | [] => rfl
  | a :: t => by
    by_cases h : q a
    · simp [List.filter_cons, h, sum_map_ite_mem q t]
      omega
    · simp [List.filter_cons, h, sum_map_ite_mem q t]

/-- Counterexample to C7 as stated: in `c7resultsW` the status
`'New Issues'` has global total 4 hours; only one of the two tickets had
any (positive) time in it, so the claimed average is 4; but the code
divides by the number of tickets whose `DurationMap` merely contains the
key — including `CN-1`'s 0.0 entry — and reports 2. -/
theorem c7_average_counterexample :
    (aggGet (aggregated_of c7resultsW) "New Issues").total_hours = 4 ∧
    (aggGet (aggregated_of c7resultsW) "New Issues").count = 2 ∧
    (c7resultsW.filter
        (fun p => decide (0 < dmGet p.2.durations "New Issues"))).length = 1 ∧
    (aggGet (aggregated_of c7resultsW) "New Issues").total_hours /
        ((aggGet (aggregated_of c7resultsW) "New Issues").count : ℚ) = 2 ∧
    (aggGet (aggregated_of c7resultsW) "New Issues").total_hours / (1 : ℚ) = 4 ∧
    (2 : ℚ) ≠ 4 := by
  refine ⟨?_, ?_, ?_, ?_, ?_, by norm_num⟩ <;>
    norm_num [c7resultsW, aggregated_of, aggAdd, aggGet, dmGet,
      List.filter_cons]

/-- C7 (amended): for aggregation inputs whose per-ticket duration maps
have no duplicate keys (always true for maps built by the calculator),
the status's accumulated `total_hours` is the sum over all tickets of the
hours recorded for that status, and the accumulated `count` — the
denominator of the reported average — is the number of tickets whose
`DurationMap` contains the status as a key, zero-hour entries included
(not the number of tickets with positive time in the status). -/
theorem c7_amended_average (results : List (String × IssueData)) (s : String)
    (hnodup : ∀ p ∈ results, (dmKeys p.2.durations).Nodup) :
    (aggGet (aggregated_of results) s).total_hours =
      (results.map (fun p => dmGet p.2.durations s)).sum ∧
    (aggGet (aggregated_of results) s).count =
      (results.filter (fun p => decide (s ∈ dmKeys p.2.durations))).length ∧
    (aggGet (aggregated_of results) s).total_hours /
        ((aggGet (aggregated_of results) s).count : ℚ) =
      (results.map (fun p => dmGet p.2.durations s)).sum /
        (((results.filter
            (fun p => decide (s ∈ dmKeys p.2.durations))).length : ℚ)) := by
  have hagg := aggGet_aggregated_of results [] s
  have h1 : (aggGet (aggregated_of results) s).total_hours =
      (results.map (fun p => dmGet p.2.durations s)).sum := by
    rw [aggregated_of, hagg]
    simp only [aggGet, zero_add]
    exact congrArg List.sum
      (List.map_congr_left fun p hp => filter_key_sum_eq_dmGet _ s (hnodup p hp))
  have h2 : (aggGet (aggregated_of results) s).count =
      (results.filter (fun p => decide (s ∈ dmKeys p.2.durations))).length := by
    rw [aggregated_of, hagg]
    simp only [aggGet, zero_add]
    rw [List.map_congr_left
      (fun p hp => countP_key_eq p.2.durations s (hnodup p hp))]
    exact sum_map_ite_mem (fun p => s ∈ dmKeys p.2.durations) results
  exact ⟨h1, h2, by rw [h1, h2]⟩

/-- Witness for the amended C7 at the concrete input `c7resultsW`: both
duration maps have distinct keys, the `'New Issues'` total is 4 and the
`count` denominator is 2 — the number of tickets holding the key. -/
theorem c7_amended_average_witness :
    (∀ p ∈ c7resultsW, (dmKeys p.2.durations).Nodup) ∧
    (aggGet (aggregated_of c7resultsW) "New Issues").total_hours =
      (c7resultsW.map (fun p => dmGet p.2.durations "New Issues")).sum ∧
    (aggGet (aggregated_of c7resultsW) "New Issues").count =
      (c7resultsW.filter
        (fun p => decide ("New Issues" ∈ dmKeys p.2.durations))).length := by
  have h := c7_amended_average c7resultsW "New Issues" (by decide)
  exact ⟨by decide, h.1, h.2.1⟩

theorem mem_dmKeys_dmAdd :
    ∀ (m : DurationMap) (s a : String) (v : ℚ),
      a ∈ dmKeys m → a ∈ dmKeys (dmAdd m s v)
  | [], s, a, v, h => by cases h
  | (k, x) :: rest, s, a, v, h => by
    by_cases hk : k = s
    · have heq : dmAdd ((k, x) :: rest) s v = (k, x + v) :: rest := by
        simp only [dmAdd]
        rw [if_pos hk]
      rw [heq]
      simpa [dmKeys] using (by simpa [dmKeys] using h : a = k ∨ a ∈ dmKeys rest)
    · have heq : dmAdd ((k, x) :: rest) s v = (k, x) :: dmAdd rest s v := by
        simp only [dmAdd]
        rw [if_neg hk]
      rw [heq]
      rcases (by simpa [dmKeys] using h : a = k ∨ a ∈ dmKeys rest) with h | h
      · simp [dmKeys, h]
      · simpa [dmKeys] using Or.inr (mem_dmKeys_dmAdd rest s a v h)

theorem self_mem_dmKeys_dmAdd :
    ∀ (m : DurationMap) (s : String) (v : ℚ), s ∈ dmKeys (dmAdd m s v)
  | [], s, v => by simp [dmAdd, dmKeys]
  | (k, x) :: rest, s, v => by
    by_cases hk : k = s
    · have heq : dmAdd ((k, x) :: rest) s v = (k, x + v) :: rest := by
        simp only [dmAdd]
        rw [if_pos hk]
      rw [heq]
      simp [dmKeys, hk]
    · have heq : dmAdd ((k, x) :: rest) s v = (k, x) :: dmAdd rest s v := by
        simp only [dmAdd]
        rw [if_neg hk]
      rw [heq]
      simpa [dmKeys] using Or.inr (self_mem_dmKeys_dmAdd rest s v)

theorem mem_dmKeys_foldl_replay :
    ∀ (l : List StatusChange) (st : ReplayState) (a : String),
      a ∈ dmKeys st.durations →
      a ∈ dmKeys (l.foldl replay_step st).durations
  | [], _, _, h => h
  | c :: t, st, a, h => by
    rw [List.foldl_cons]
    exact mem_dmKeys_foldl_replay t _ a (mem_dmKeys_dmAdd _ _ a _ h)

/-- C10: for every non-empty (sorted) transition sequence, the
`DurationMap` produced by `_calculate_status_durations` contains the key
`'New Issues'` — the first loop iteration accrues a (possibly 0.0)
duration into the synthetic initial status — and consequently every such
ticket counts in the `count` denominator of the per-status `'New Issues'`
average computed by the aggregation. -/
theorem c10_new_issues_key (now : ℚ) (first : StatusChange)
    (rest : List StatusChange)
    (hsorted : List.Pairwise
      (fun a b : StatusChange => a.timestamp ≤ b.timestamp) (first :: rest)) :
    "New Issues" ∈ dmKeys (calculate_status_durations now (first :: rest)) ∧
    ∀ results : List (String × IssueData),
      (∀ p ∈ results, "New Issues" ∈ dmKeys p.2.durations ∧
        (dmKeys p.2.durations).Nodup) →
      (aggGet (aggregated_of results) "New Issues").count = results.length := by
  constructor
  · have hbase : "New Issues" ∈
        dmKeys ((first :: rest).foldl replay_step
          ⟨"New Issues", first.timestamp, []⟩).durations := by
      rw [List.foldl_cons]
      exact mem_dmKeys_foldl_replay rest _ "New Issues"
        (self_mem_dmKeys_dmAdd [] "New Issues" _)
    simp only [calculate_status_durations]
    by_cases hdone :
        ((first :: rest).foldl replay_step
          ⟨"New Issues", first.timestamp, []⟩).current_status ≠ "Done"
    · rw [if_pos hdone]
      exact mem_dmKeys_dmAdd _ _ _ _ hbase
    · rw [if_neg hdone]
      exact hbase
  · intro results hp
    have hagg := aggGet_aggregated_of results [] "New Issues"
    rw [aggregated_of, hagg]
    simp only [aggGet, zero_add]
    have hone : ∀ p ∈ results,
        p.2.durations.countP (fun q => decide (q.1 = "New Issues")) = 1 := by
      intro p hmem
      rw [countP_key_eq p.2.durations "New Issues" (hp p hmem).2]
      rw [if_pos (hp p hmem).1]
    rw [List.map_congr_left hone]
    simp

/-- Witness for C10: a ticket that jumps straight from `None` to
`'In Progress'` still gets a `'New Issues'` key (with 0.0 hours), and a
one-ticket aggregation input holding such a map counts it in the
`'New Issues'` denominator. -/
theorem c10_new_issues_key_witness :
    "New Issues" ∈
      dmKeys (calculate_status_durations 3600 [⟨"None", "In Progress", 0⟩]) ∧
    (aggGet (aggregated_of
        [("CN-1", ⟨[("New Issues", 0), ("In Progress", 1)], "", none, "", ""⟩)])
      "New Issues").count = 1 := by
  have h := c10_new_issues_key 3600 ⟨"None", "In Progress", 0⟩ [] (by decide)
  exact ⟨h.1,
    h.2 [("CN-1", ⟨[("New Issues", 0), ("In Progress", 1)], "", none, "", ""⟩)]
      (by decide)⟩

end JiraBot
